import Mathlib

/-!
Verification development for the PlotView repository (`plot_view.go`).

The repository ships two variants of the same program in one source file:
an older variant (`readDataFromFile` / `plotDataToSixel` / case-sensitive
`isSixelSupported`) and a newer variant (`readData` / `parseLine` / `run` /
`displaySixel` / lowercasing `isSixelSupported`).  Both are embedded here;
definitions for the older variant carry a `V1` suffix where the Go names
collide.

Modelling conventions:
* Go `float64` values are modelled as `ℚ`.  Every concrete number appearing
  in the claims (small integers, halves) is exactly representable in binary
  floating point, so the rational model agrees with the Go semantics on all
  inputs used in theorems and witnesses.
* Go `string` values are modelled as `List Char` (the program only deals in
  ASCII data).
* `strconv.ParseFloat` is modelled by `parseGoFloat`, covering the decimal
  and scientific-notation literal forms; the exotic forms Go additionally
  accepts (hex mantissas, `inf`/`NaN` spellings, digit-separating
  underscores) are outside the model — no claim mentions them.
* `unicode.IsSpace` is modelled on the Latin-1 range (the whitespace
  characters occurring in text data files).
* External collaborators (gonum chart construction/saving, image decoding,
  the sixel encoder) are abstracted as boolean success flags in the `run` /
  `plotDataToSixel` pipeline models; file I/O success is likewise a flag.
-/

set_option maxHeartbeats 1000000

deriving instance DecidableEq for Except

namespace PlotView

/-- Model of Go `unicode.IsSpace` restricted to the Latin-1 range:
space, `\t`, `\n`, `\v` (11), `\f` (12), `\r`, NEL (133), NBSP (160). -/
def isSpace (c : Char) : Bool :=
  c = ' ' || c = '\t' || c = '\n' || c = '\r' ||
    c.toNat = 11 || c.toNat = 12 || c.toNat = 133 || c.toNat = 160

/-- Remove trailing whitespace (the right half of Go `strings.TrimSpace`). -/
def trimRight : List Char → List Char
  | [] => []
  | c :: r =>
    match trimRight r with
    | [] => if isSpace c then [] else [c]
    | t => c :: t

/-- Model of Go `strings.TrimSpace`: drop leading and trailing whitespace. -/
def trimSpace (s : List Char) : List Char :=
  trimRight (s.dropWhile isSpace)

/-- Accumulator worker for `fields`; `acc` holds the current in-progress
field in reverse order. -/
def fieldsAux : List Char → List Char → List (List Char)
  | [], acc => if acc = [] then [] else [acc.reverse]
  | c :: r, acc =>
    if isSpace c then
      if acc = [] then fieldsAux r [] else acc.reverse :: fieldsAux r []
    else fieldsAux r (c :: acc)

/-- Model of Go `strings.Fields`: split around runs of whitespace,
returning the (possibly empty) list of non-empty maximal non-space runs. -/
def fields (s : List Char) : List (List Char) :=
  fieldsAux s []

/-- ASCII decimal digit test (`'0' ≤ c ≤ '9'`). -/
def isDigit (c : Char) : Bool :=
  '0' ≤ c && c ≤ '9'

/-- Numeric value of an ASCII digit. -/
def digVal (c : Char) : ℕ :=
  c.toNat - '0'.toNat

/-- Split off the maximal leading run of ASCII digits. -/
def takeDigits : List Char → List Char × List Char
  | [] => ([], [])
  | c :: r =>
    if isDigit c then ((c :: (takeDigits r).1), (takeDigits r).2)
    else ([], c :: r)

/-- Value of a digit string read in base 10. -/
def digitsVal (ds : List Char) : ℕ :=
  ds.foldl (fun a c => 10 * a + digVal c) 0

/-- Value of the literal `ip.fp` (integer part, fractional part):
the rational `ip + fp / 10 ^ |fp|`, assembled as the single fraction
`(ip * 10 ^ |fp| + fp) / 10 ^ |fp|` so that the kernel can evaluate it
(the `ℚ` field operations are `@[irreducible]`); `mantissaVal_eq` below
proves the two forms equal. -/
def mantissaVal (ip fp : List Char) : ℚ :=
  mkRat ((digitsVal ip * 10 ^ fp.length + digitsVal fp : ℕ) : ℤ) (10 ^ fp.length)

/-- Apply a decimal exponent of magnitude `k` to `v`: `v / 10 ^ k` when
`neg`, else `v * 10 ^ k`, assembled on the numerator/denominator directly
(see `applyExp_eq`). -/
def applyExp (v : ℚ) (neg : Bool) (k : ℕ) : ℚ :=
  if neg then mkRat v.num (v.den * 10 ^ k)
  else mkRat (v.num * ((10 ^ k : ℕ) : ℤ)) v.den

/-- Parse the digit string of an exponent; it must be non-empty and must
exhaust the input. -/
def parseExpDigits (v : ℚ) (neg : Bool) (r : List Char) : Option ℚ :=
  if (takeDigits r).1 = [] || (takeDigits r).2 ≠ [] then none
  else some (applyExp v neg (digitsVal (takeDigits r).1))

/-- Parse the optional `e`/`E` exponent suffix of a float literal. -/
def parseExpTail (v : ℚ) (rest : List Char) : Option ℚ :=
  match rest with
  | [] => some v
  | c :: r =>
    if c = 'e' || c = 'E' then
      match r with
      | [] => none
      | d :: r1 =>
        if d = '+' then parseExpDigits v false r1
        else if d = '-' then parseExpDigits v true r1
        else parseExpDigits v false (d :: r1)
    else none

/-- Parse the mantissa of a float literal: `digits`, `digits.digits?`, or
`.digits`; returns the value and the unconsumed remainder. -/
def parseMantissa (s : List Char) : Option (ℚ × List Char) :=
  let ip := (takeDigits s).1
  match (takeDigits s).2 with
  | [] => if ip = [] then none else some ((digitsVal ip : ℚ), [])
  | c :: r2 =>
    if c = '.' then
      if ip = [] && (takeDigits r2).1 = [] then none
      else some (mantissaVal ip (takeDigits r2).1, (takeDigits r2).2)
    else if ip = [] then none
    else some ((digitsVal ip : ℚ), c :: r2)

/-- Negation on `ℚ` by negating the numerator (see `qNeg_eq`). -/
def qNeg (v : ℚ) : ℚ :=
  mkRat (-v.num) v.den

/-- Parse an unsigned float literal and negate the result when `neg`. -/
def parseSignedFloat (neg : Bool) (s : List Char) : Option ℚ :=
  match parseMantissa s with
  | none => none
  | some (m, rest) =>
    match parseExpTail m rest with
    | none => none
    | some v => some (if neg then qNeg v else v)

/-- Model of Go `strconv.ParseFloat(s, 64)` on decimal/scientific literals:
optional sign, then mantissa, then optional exponent, with nothing left
over.  Returns `none` exactly when Go returns a parse error (within the
modelled literal forms). -/
def parseGoFloat (s : List Char) : Option ℚ :=
  match s with
  | [] => none
  | c :: r =>
    if c = '+' then parseSignedFloat false r
    else if c = '-' then parseSignedFloat true r
    else parseSignedFloat false (c :: r)

/-- A plotted coordinate pair; Go `Point` (newer variant) and `DataPoint`
(older variant), both a pair of `float64`. -/
structure Point where
  X : ℚ
  Y : ℚ
deriving DecidableEq, Repr

/-- Which field of a two-value line an `invalid ... value` error names. -/
inductive Axis where
  | X
  | Y
deriving DecidableEq, Repr

/-- The error values `parseLine` can produce: `invalid X/Y value %q`
(carrying the offending field) or `expected 1 or 2 values, got %d`
(carrying the actual field count). -/
inductive LineError where
  | invalidValue : Axis → List Char → LineError
  | unsupportedFormat : ℕ → LineError
deriving DecidableEq, Repr

/-- Model of `parseLine` (newer variant, plot_view.go lines 399-427):
split on whitespace; one field parses as Y with X synthesized from
`lineIndex`; two fields parse as X and Y; any other count is unsupported. -/
def parseLine (line : List Char) (lineIndex : ℚ) : Except LineError Point :=
  match fields line with
  | [f] =>
    match parseGoFloat f with
    | none => .error (.invalidValue .Y f)
    | some y => .ok ⟨lineIndex, y⟩
  | [f, g] =>
    match parseGoFloat f with
    | none => .error (.invalidValue .X f)
    | some x =>
      match parseGoFloat g with
      | none => .error (.invalidValue .Y g)
      | some y => .ok ⟨x, y⟩
  | fs => .error (.unsupportedFormat fs.length)

/-- How the ingestion loop of `readData` treats one raw input line after
trimming: blank skip, comment skip, or parse attempt on the trimmed text. -/
inductive LineKind where
  | blank
  | comment
  | data (trimmed : List Char)
deriving DecidableEq, Repr

/-- Model of the per-line test in `readData` (line 374-377):
`line := strings.TrimSpace(...)`; skip when `line == "" || line[0] == '#'
|| line[0] == '%'`, otherwise the trimmed line is handed to `parseLine`. -/
def lineKindOf (raw : List Char) : LineKind :=
  match trimSpace raw with
  | [] => .blank
  | c :: t => if c = '#' || c = '%' then .comment else .data (c :: t)

/-- The increment `q + 1.0` of the synthetic X counters, assembled on the
numerator/denominator so that the kernel can evaluate it; `ratSucc_eq`
below proves `ratSucc q = q + 1`. -/
def ratSucc (q : ℚ) : ℚ :=
  mkRat (q.num + (q.den : ℤ)) q.den

/-- Loop state of `readData` (newer variant): accumulated points, the
synthetic X counter `lineIndex`, and the diagnostics logged so far
(`Skipping line %.0f ...` records `lineIndex+1` and the error). -/
structure StateV2 where
  points : List Point
  lineIndex : ℚ
  diags : List (ℚ × LineError)
deriving DecidableEq, Repr

/-- One iteration of the `readData` scan loop (lines 373-388). -/
def readDataStep (st : StateV2) (raw : List Char) : StateV2 :=
  match lineKindOf raw with
  | .blank => st
  | .comment => st
  | .data line =>
    match parseLine line st.lineIndex with
    | .error e => { st with diags := st.diags ++ [(ratSucc st.lineIndex, e)] }
    | .ok p => { st with points := st.points ++ [p], lineIndex := ratSucc st.lineIndex }

/-- Full ingestion state of `readData` over a file given as its list of
scanned lines. -/
def ingestV2 (content : List (List Char)) : StateV2 :=
  content.foldl readDataStep ⟨[], 0, []⟩

/-- Model of `readData` (lines 360-393) restricted to its point output;
the modelled scan never faults, matching the claims' "no I/O error" side
condition. -/
def readData (content : List (List Char)) : List Point :=
  (ingestV2 content).points

/-- The comment test of the older variant (line 67): `strings.HasPrefix`
with `"#"`, `"%"` or `"/"` on the *untrimmed* line. -/
def isCommentV1 (line : List Char) : Bool :=
  match line with
  | [] => false
  | c :: _ => c = '#' || c = '%' || c = '/'

/-- Loop state of `readDataFromFile` (older variant): points, the
synthetic X counter `lineNumber`, the physical line counter `lineCount`,
and the `Parsing error on line %d: %s` diagnostics (line count and raw
line). -/
structure StateV1 where
  points : List Point
  lineNumber : ℚ
  lineCount : ℕ
  diags : List (ℕ × List Char)
deriving DecidableEq, Repr

/-- One iteration of the `readDataFromFile` scan loop (lines 63-99).
`lineCount` is incremented for every scanned line before any other test.
The Go `else if len(fields) == 1` branch is listed after the
`len(fields) >= 2` branch; the match arms here are the same disjoint
cases.  (The final Go `else` branch is unreachable: `len(fields) == 0`
is already handled.) -/
def readDataFromFileStep (st0 : StateV1) (line : List Char) : StateV1 :=
  let st := { st0 with lineCount := st0.lineCount + 1 }
  if isCommentV1 line then st
  else
    match fields line with
    | [] => st
    | [f] =>
      match parseGoFloat f with
      | none => { st with diags := st.diags ++ [(st.lineCount, line)] }
      | some y => { st with points := st.points ++ [⟨st.lineNumber, y⟩],
                            lineNumber := ratSucc st.lineNumber }
    | f :: g :: _ =>
      match parseGoFloat f, parseGoFloat g with
      | some x, some y => { st with points := st.points ++ [⟨x, y⟩],
                                    lineNumber := ratSucc st.lineNumber }
      | _, _ => { st with diags := st.diags ++ [(st.lineCount, line)] }

/-- Full ingestion state of `readDataFromFile` over a file given as its
list of scanned lines. -/
def ingestV1 (content : List (List Char)) : StateV1 :=
  content.foldl readDataFromFileStep ⟨[], 0, 0, []⟩

/-- Model of `readDataFromFile` (lines 51-106) restricted to its point
output. -/
def readDataFromFile (content : List (List Char)) : List Point :=
  (ingestV1 content).points

/-- The per-line test of `readData` with the `line[0]` character access
made explicit as a partial operation: `none` marks the out-of-bounds
access Go would panic on.  The emptiness test `line == ""` short-circuits
before the index, exactly as in the source disjunction. -/
def lineKindOfChecked (raw : List Char) : Option LineKind :=
  let line := trimSpace raw
  if line = [] then some .blank
  else
    match line.get? 0 with
    | none => none
    | some c => some (if c = '#' || c = '%' then .comment else .data line)

/-- `readDataStep` built on the checked classification: propagates the
potential out-of-bounds access. -/
def readDataStepChecked (st : StateV2) (raw : List Char) : Option StateV2 :=
  match lineKindOfChecked raw with
  | none => none
  | some .blank => some st
  | some .comment => some st
  | some (.data line) =>
    match parseLine line st.lineIndex with
    | .error e => some { st with diags := st.diags ++ [(ratSucc st.lineIndex, e)] }
    | .ok p => some { st with points := st.points ++ [p], lineIndex := ratSucc st.lineIndex }

/-- The `readData` ingestion loop with every `line[0]` access checked. -/
def ingestV2Checked (content : List (List Char)) : Option StateV2 :=
  content.foldlM readDataStepChecked ⟨[], 0, []⟩

/-- ASCII lowercase conversion (model of `strings.ToLower` on ASCII). -/
def lowerChar (c : Char) : Char :=
  if 'A' ≤ c && c ≤ 'Z' then Char.ofNat (c.toNat + 32) else c

/-- Does `s` start with `pat`?  (Model of Go `strings.HasPrefix`.) -/
def startsWith : List Char → List Char → Bool
  | [], _ => true
  | _ :: _, [] => false
  | p :: ps, c :: cs => p = c && startsWith ps cs

/-- Model of Go `strings.Contains`: some suffix of `s` starts with `pat`. -/
def strContains : List Char → List Char → Bool
  | [], pat => startsWith pat []
  | c :: cs, pat => startsWith pat (c :: cs) || strContains cs pat

def xtermPat : List Char := ['x', 't', 'e', 'r', 'm']

def vt340Pat : List Char := ['v', 't', '3', '4', '0']

def mltermPat : List Char := ['m', 'l', 't', 'e', 'r', 'm']

/-- Model of `isSixelSupported` (newer variant, lines 522-527):
lowercase `TERM`, then test the three substrings. -/
def isSixelSupported (term : List Char) : Bool :=
  strContains (term.map lowerChar) xtermPat ||
    strContains (term.map lowerChar) vt340Pat ||
    strContains (term.map lowerChar) mltermPat

/-- Model of `isSixelSupported` (older variant, lines 213-216): the same
three substrings tested on `TERM` verbatim, without lowercasing. -/
def isSixelSupportedV1 (term : List Char) : Bool :=
  strContains term xtermPat ||
    strContains term vt340Pat ||
    strContains term mltermPat

/-- Case-insensitive substring containment, following the spec's words
"contains (case-insensitive)"; used to compare the code's checks against
the claimed behaviour. -/
def strContainsCI (s pat : List Char) : Bool :=
  strContains (s.map lowerChar) (pat.map lowerChar)

/-- The fatal error kinds of the pipeline (spec §7); parse errors are
absorbed inside ingestion and never appear here. -/
inductive RunError where
  | readError
  | emptyDataset
  | chartError
  | displayError
deriving DecidableEq, Repr

/-- Model of `run` (newer variant, lines 329-351) composed with
`displaySixel` (lines 493-519).  External collaborators are abstracted:
`scanOk` = the file scan reports no fault, `chartOk` = chart construction
and save succeed, `decodeOk` = re-decoding the saved image succeeds.  The
`Bool` result records whether sixel graphics were streamed to stdout. -/
def run (content : List (List Char)) (term : List Char)
    (scanOk chartOk decodeOk : Bool) : Except RunError Bool :=
  if scanOk = false then .error .readError
  else if readData content = [] then .error .emptyDataset
  else if chartOk = false then .error .chartError
  else if isSixelSupported term = false then .ok false
  else if decodeOk = false then .error .displayError
  else .ok true

/-- Model of `plotDataToSixel` (older variant, lines 145-211) under the
same abstraction of external collaborators.  An unsupported terminal
prints a note and returns success without sixel output. -/
def plotDataToSixel (content : List (List Char)) (term : List Char)
    (scanOk chartOk decodeOk : Bool) : Except RunError Bool :=
  if scanOk = false then .error .readError
  else if readDataFromFile content = [] then .error .emptyDataset
  else if chartOk = false then .error .chartError
  else if isSixelSupportedV1 term = false then .ok false
  else if decodeOk = false then .error .displayError
  else .ok true

/-- Process exit code: `main` exits 0 on success and 1 on any returned
error (`log.Fatal` / `os.Exit(1)`). -/
def exitCode (r : Except RunError Bool) : ℕ :=
  match r with
  | .ok _ => 0
  | .error _ => 1

/-- The configuration slice relevant to the display claims: `width`,
`height` (Go `int`) and `scale` (Go `float64`).  The remaining fields
(input path, line width, colors) play no part in any claim. -/
structure Config where
  width : ℤ
  height : ℤ
  scale : ℚ
deriving DecidableEq, Repr

/-- Go's `int(f)` conversion on `float64`: truncation toward zero. -/
def goInt (q : ℚ) : ℤ :=
  if q.num < 0 then -((q.num.natAbs / q.den : ℕ) : ℤ)
  else ((q.num.natAbs / q.den : ℕ) : ℤ)

/-- The product `(w : ℚ) * s` of an integer dimension and the scale
factor, assembled on the numerator/denominator so that the kernel can
evaluate it; `qScale_eq` below proves it equal to the product. -/
def qScale (w : ℤ) (s : ℚ) : ℚ :=
  mkRat (w * s.num) s.den

/-- Dimensions of the saved PNG: `p.Save(vg.Points(width),
vg.Points(height), ...)` — derived from `width`/`height` only. -/
def savedDims (cfg : Config) : ℤ × ℤ :=
  (cfg.width, cfg.height)

/-- The dimensions `displaySixel` (newer variant, lines 509-513) writes
into the sixel encoder: `none` = the encoder fields are left at their
defaults (no resize), `some (w, h)` = `enc.Width`/`enc.Height` are set. -/
def displaySixelDims (cfg : Config) : Option (ℤ × ℤ) :=
  if cfg.scale = 1 then none
  else some (goInt (qScale cfg.width cfg.scale), goInt (qScale cfg.height cfg.scale))

/-- The dimensions `plotDataToSixel` (older variant, lines 193-200)
writes into the sixel encoder: the same computation, but guarded by
`newWidth > 0 && newHeight > 0` — non-positive results leave the encoder
untouched. -/
def plotDataToSixelDims (cfg : Config) : Option (ℤ × ℤ) :=
  if cfg.scale = 1 then none
  else
    let newWidth := goInt (qScale cfg.width cfg.scale)
    let newHeight := goInt (qScale cfg.height cfg.scale)
    if 0 < newWidth ∧ 0 < newHeight then some (newWidth, newHeight) else none

/-! ### Bridge lemmas: the kernel-evaluable rational constructions agree
with the textbook field operations they stand for. -/

theorem mkRat_eq_divQ (n : ℤ) (d : ℕ) : mkRat n d = (n : ℚ) / (d : ℚ) := by
  rw [Rat.mkRat_eq_divInt, Rat.divInt_eq_div]
  norm_cast

theorem ratSucc_eq (q : ℚ) : ratSucc q = q + 1 := by
  unfold ratSucc
  rw [mkRat_eq_divQ]
  push_cast
  rw [add_div, Rat.num_div_den, div_self (Nat.cast_ne_zero.mpr q.den_ne_zero)]

theorem qScale_eq (w : ℤ) (s : ℚ) : qScale w s = (w : ℚ) * s := by
  unfold qScale
  rw [mkRat_eq_divQ]
  push_cast
  rw [mul_div_assoc, Rat.num_div_den]

theorem qNeg_eq (v : ℚ) : qNeg v = -v := by
  unfold qNeg
  rw [mkRat_eq_divQ]
  push_cast
  rw [neg_div, Rat.num_div_den]

theorem mantissaVal_eq (ip fp : List Char) :
    mantissaVal ip fp =
      (digitsVal ip : ℚ) + (digitsVal fp : ℚ) / (10 : ℚ) ^ fp.length := by
  unfold mantissaVal
  rw [mkRat_eq_divQ]
  push_cast
  field_simp

theorem applyExp_eq (v : ℚ) (neg : Bool) (k : ℕ) :
    applyExp v neg k = if neg then v / (10 : ℚ) ^ k else v * (10 : ℚ) ^ k := by
  unfold applyExp
  cases neg
  · rw [if_neg (by simp), if_neg (by simp), mkRat_eq_divQ]
    push_cast
    rw [mul_div_right_comm, Rat.num_div_den]
  · rw [if_pos rfl, if_pos rfl, mkRat_eq_divQ]
    push_cast
    rw [← div_div, Rat.num_div_den]

/-! ### Whitespace, trimming and field-splitting lemmas -/

theorem isSpace_of_marker (c : Char) (h : c = '#' ∨ c = '%' ∨ c = '/') :
    isSpace c = false := by
  rcases h with h | h | h <;> subst h <;> decide

theorem trimRight_cons_not_space (c : Char) (t : List Char) (hc : isSpace c = false) :
    ∃ u, trimRight (c :: t) = c :: u := by
  show ∃ u, (match trimRight t with
    | [] => if isSpace c then [] else [c]
    | t => c :: t) = c :: u
  cases trimRight t with
  | nil => exact ⟨[], by simp [hc]⟩
  | cons d ts => exact ⟨d :: ts, rfl⟩

theorem dropWhile_head_false (p : Char → Bool) :
    ∀ (s : List Char) (c : Char) (t : List Char), s.dropWhile p = c :: t → p c = false := by
  intro s
  induction s with
  | nil => intro c t h; cases h
  | cons a r ih =>
    intro c t h
    rw [List.dropWhile_cons] at h
    by_cases ha : p a = true
    · exact ih c t (by rwa [if_pos ha] at h)
    · rw [if_neg ha] at h
      cases h
      exact eq_false_of_ne_true ha

theorem trimSpace_eq_nil_iff (s : List Char) :
    trimSpace s = [] ↔ ∀ c ∈ s, isSpace c = true := by
  unfold trimSpace
  constructor
  · intro h
    cases hd : s.dropWhile isSpace with
    | nil => exact List.dropWhile_eq_nil_iff.mp hd
    | cons c t =>
      obtain ⟨u, hu⟩ := trimRight_cons_not_space c t (dropWhile_head_false isSpace s c t hd)
      rw [hd, hu] at h
      cases h
  · intro h
    rw [List.dropWhile_eq_nil_iff.mpr h]
    rfl

theorem trimSpace_head_not_space (s : List Char) (c : Char) (t : List Char)
    (h : trimSpace s = c :: t) : isSpace c = false := by
  unfold trimSpace at h
  cases hd : s.dropWhile isSpace with
  | nil => rw [hd] at h; cases h
  | cons a r =>
    have ha : isSpace a = false := dropWhile_head_false isSpace s a r hd
    obtain ⟨u, hu⟩ := trimRight_cons_not_space a r ha
    rw [hd, hu] at h
    cases h
    exact ha

theorem trimSpace_cons_space (c : Char) (r : List Char) (hc : isSpace c = true) :
    trimSpace (c :: r) = trimSpace r := by
  unfold trimSpace
  rw [List.dropWhile_cons, if_pos hc]

theorem trimSpace_cons_not_space (c : Char) (r : List Char) (hc : isSpace c = false) :
    ∃ u, trimSpace (c :: r) = c :: u := by
  unfold trimSpace
  rw [List.dropWhile_cons, if_neg (by simp [hc])]
  exact trimRight_cons_not_space c r hc

theorem fieldsAux_trimRight :
    ∀ (t : List Char) (acc : List Char), fieldsAux (trimRight t) acc = fieldsAux t acc := by
  intro t
  induction t with
  | nil => intro acc; rfl
  | cons c r ih =>
    intro acc
    show fieldsAux (match trimRight r with
      | [] => if isSpace c then [] else [c]
      | t => c :: t) acc = fieldsAux (c :: r) acc
    cases hr : trimRight r with
    | nil =>
      have hbase : ∀ a, fieldsAux r a = fieldsAux [] a := by
        intro a
        rw [← ih a, hr]
      by_cases hc : isSpace c = true
      · rw [if_pos hc]
        simp [fieldsAux, hc, hbase]
      · rw [if_neg hc]
        simp [fieldsAux, hc, hbase]
    | cons d ts =>
      show fieldsAux (c :: d :: ts) acc = fieldsAux (c :: r) acc
      have hds : ∀ a, fieldsAux (d :: ts) a = fieldsAux r a := by
        intro a
        rw [← ih a, hr]
      conv_lhs => rw [fieldsAux]
      conv_rhs => rw [fieldsAux]
      by_cases hc : isSpace c = true
      · rw [if_pos hc, if_pos hc]
        by_cases hacc : acc = []
        · rw [if_pos hacc, if_pos hacc, hds]
        · rw [if_neg hacc, if_neg hacc, hds]
      · rw [if_neg hc, if_neg hc, hds]

theorem fieldsAux_dropWhile :
    ∀ s : List Char, fieldsAux (s.dropWhile isSpace) [] = fieldsAux s [] := by
  intro s
  induction s with
  | nil => rfl
  | cons c r ih =>
    rw [List.dropWhile_cons]
    by_cases hc : isSpace c = true
    · rw [if_pos hc, ih]
      show fieldsAux r [] = fieldsAux (c :: r) []
      rw [fieldsAux, if_pos hc, if_pos rfl]
    · rw [if_neg (by simp [hc])]

theorem fields_trimSpace (s : List Char) : fields (trimSpace s) = fields s := by
  unfold fields trimSpace
  rw [fieldsAux_trimRight, fieldsAux_dropWhile]

theorem fieldsAux_acc_shape :
    ∀ (r : List Char) (acc : List Char), acc ≠ [] →
      ∃ tail rest, fieldsAux r acc = (acc.reverse ++ tail) :: rest := by
  intro r
  induction r with
  | nil =>
    intro acc hacc
    exact ⟨[], [], by rw [fieldsAux, if_neg hacc, List.append_nil]⟩
  | cons c t ih =>
    intro acc hacc
    rw [fieldsAux]
    by_cases hc : isSpace c = true
    · rw [if_pos hc, if_neg hacc]
      exact ⟨[], fieldsAux t [], by rw [List.append_nil]⟩
    · rw [if_neg hc]
      obtain ⟨tail, rest, h⟩ := ih (c :: acc) (by simp)
      refine ⟨c :: tail, rest, ?_⟩
      rw [h]
      simp

theorem fields_cons_head (c : Char) (t : List Char) (hc : isSpace c = false) :
    ∃ f rest, fields (c :: t) = (c :: f) :: rest := by
  unfold fields
  rw [fieldsAux, if_neg (by simp [hc])]
  obtain ⟨tail, rest, h⟩ := fieldsAux_acc_shape t [c] (by simp)
  exact ⟨tail, rest, by rw [h]; rfl⟩

theorem fields_cons_space (c : Char) (r : List Char) (hc : isSpace c = true) :
    fields (c :: r) = fields r := by
  unfold fields
  rw [fieldsAux, if_pos hc, if_pos rfl]

theorem fields_eq_nil_iff (s : List Char) :
    fields s = [] ↔ ∀ c ∈ s, isSpace c = true := by
  induction s with
  | nil => simp [fields, fieldsAux]
  | cons c r ih =>
    by_cases hc : isSpace c = true
    · rw [fields_cons_space c r hc, ih]
      constructor
      · intro h x hx
        rcases List.mem_cons.mp hx with h1 | h1
        · subst h1; exact hc
        · exact h x h1
      · intro h x hx
        exact h x (List.mem_cons_of_mem c hx)
    · obtain ⟨f, rest, hf⟩ := fields_cons_head c r (eq_false_of_ne_true hc)
      rw [hf]
      constructor
      · intro h; cases h
      · intro h
        exact absurd (h c (List.mem_cons_self c r)) hc

/-! ### Float-literal parsing lemmas -/

theorem parseGoFloat_head_none (c : Char) (r : List Char)
    (h1 : c ≠ '+') (h2 : c ≠ '-') (h3 : c ≠ '.') (h4 : isDigit c = false) :
    parseGoFloat (c :: r) = none := by
  have hm : parseMantissa (c :: r) = none := by
    simp [parseMantissa, takeDigits, h3, h4]
  simp [parseGoFloat, h1, h2, parseSignedFloat, hm]

theorem parseGoFloat_marker_none (c : Char) (r : List Char)
    (h : c = '#' ∨ c = '%' ∨ c = '/') : parseGoFloat (c :: r) = none := by
  rcases h with h | h | h <;> subst h <;>
    exact parseGoFloat_head_none _ _ (by decide) (by decide) (by decide) (by decide)

/-! ### Characterization of the `readData` per-line classification and step -/

theorem lineKindOf_blank (raw : List Char) (h : trimSpace raw = []) :
    lineKindOf raw = .blank := by
  unfold lineKindOf
  rw [h]

theorem lineKindOf_comment (raw : List Char) (c : Char) (t : List Char)
    (h : trimSpace raw = c :: t) (hc : c = '#' ∨ c = '%') :
    lineKindOf raw = .comment := by
  unfold lineKindOf
  rw [h]
  rcases hc with hc | hc <;> subst hc <;> rfl

theorem lineKindOf_data (raw : List Char) (c : Char) (t : List Char)
    (h : trimSpace raw = c :: t) (hc1 : c ≠ '#') (hc2 : c ≠ '%') :
    lineKindOf raw = .data (c :: t) := by
  unfold lineKindOf
  rw [h]
  simp [hc1, hc2]

theorem readDataStep_skip (st : StateV2) (raw : List Char)
    (h : lineKindOf raw = .blank ∨ lineKindOf raw = .comment) :
    readDataStep st raw = st := by
  rcases h with h | h <;> simp only [readDataStep, h]

theorem readDataStep_err (st : StateV2) (raw : List Char) (line : List Char) (e : LineError)
    (hk : lineKindOf raw = .data line) (he : parseLine line st.lineIndex = .error e) :
    readDataStep st raw = { st with diags := st.diags ++ [(ratSucc st.lineIndex, e)] } := by
  simp only [readDataStep, hk, he]

theorem readDataStep_ok (st : StateV2) (raw : List Char) (line : List Char) (p : Point)
    (hk : lineKindOf raw = .data line) (hp : parseLine line st.lineIndex = .ok p) :
    readDataStep st raw =
      { st with points := st.points ++ [p], lineIndex := ratSucc st.lineIndex } := by
  simp only [readDataStep, hk, hp]

/-! ### The checked `line[0]` access never goes out of bounds (C10) -/

theorem lineKindOfChecked_eq (raw : List Char) :
    lineKindOfChecked raw = some (lineKindOf raw) := by
  unfold lineKindOfChecked lineKindOf
  cases h : trimSpace raw with
  | nil => rfl
  | cons c t => simp

theorem readDataStepChecked_eq (st : StateV2) (raw : List Char) :
    readDataStepChecked st raw = some (readDataStep st raw) := by
  unfold readDataStepChecked readDataStep
  rw [lineKindOfChecked_eq]
  cases lineKindOf raw with
  | blank => rfl
  | comment => rfl
  | data line =>
    cases hp : parseLine line st.lineIndex <;> simp [hp]

theorem foldlM_checked_eq :
    ∀ (content : List (List Char)) (st : StateV2),
      List.foldlM readDataStepChecked st content = some (List.foldl readDataStep st content) := by
  intro content
  induction content with
  | nil => intro st; rfl
  | cons l ls ih =>
    intro st
    simp [List.foldlM_cons, readDataStepChecked_eq, ih]

/-- C10: In `readData`, the character access `line[0]` in the comment check
is always in bounds: the emptiness test `line == ""` is evaluated first and
short-circuits, so indexing happens only on non-empty trimmed lines; the
embedded ingestion loop is total — running the loop with every index access
checked never reaches the out-of-bounds outcome and agrees with the
unchecked loop on every input. -/
theorem readData_index_safe (content : List (List Char)) :
    ingestV2Checked content = some (ingestV2 content) :=
  foldlM_checked_eq content ⟨[], 0, []⟩

/-! ### The synthetic X counter equals the number of points (C3) -/

theorem counter_eq_length_aux :
    ∀ (ls : List (List Char)) (st : StateV2), st.lineIndex = (st.points.length : ℚ) →
      (List.foldl readDataStep st ls).lineIndex =
        ((List.foldl readDataStep st ls).points.length : ℚ) := by
  intro ls
  induction ls with
  | nil => intro st h; exact h
  | cons l rest ih =>
    intro st h
    rw [List.foldl_cons]
    apply ih
    rcases hk : lineKindOf l with _ | _ | line
    · rw [readDataStep_skip st l (Or.inl hk)]; exact h
    · rw [readDataStep_skip st l (Or.inr hk)]; exact h
    · cases hp : parseLine line st.lineIndex with
      | error e => rw [readDataStep_err st l line e hk hp]; exact h
      | ok p =>
        rw [readDataStep_ok st l line p hk hp]
        show ratSucc st.lineIndex = (((st.points ++ [p]).length : ℕ) : ℚ)
        rw [ratSucc_eq, h]
        push_cast [List.length_append, List.length_cons, List.length_nil]
        ring

/-- C3: Throughout ingestion, the synthetic X counter equals the number of
points appended so far; it increases by exactly 1.0 when and only when a
line is successfully parsed into a point, and is unchanged by blank lines,
comment lines, and malformed lines; consequently for the input
`# header` / `10` / `20` the result is `[{0,10},{1,20}]`. -/
theorem synthetic_counter_invariant :
    (∀ content : List (List Char),
        (ingestV2 content).lineIndex = ((ingestV2 content).points.length : ℚ)) ∧
    (∀ (st : StateV2) (raw : List Char),
        lineKindOf raw = .blank ∨ lineKindOf raw = .comment → readDataStep st raw = st) ∧
    (∀ (st : StateV2) (raw line : List Char) (e : LineError),
        lineKindOf raw = .data line → parseLine line st.lineIndex = .error e →
          (readDataStep st raw).points = st.points ∧
            (readDataStep st raw).lineIndex = st.lineIndex) ∧
    (∀ (st : StateV2) (raw line : List Char) (p : Point),
        lineKindOf raw = .data line → parseLine line st.lineIndex = .ok p →
          (readDataStep st raw).points = st.points ++ [p] ∧
            (readDataStep st raw).lineIndex = st.lineIndex + 1) ∧
    readData [("# header".toList), ("10".toList), ("20".toList)] = [⟨0, 10⟩, ⟨1, 20⟩] ∧
    readDataFromFile [("# header".toList), ("10".toList), ("20".toList)] =
      [⟨0, 10⟩, ⟨1, 20⟩] := by
  refine ⟨?_, readDataStep_skip, ?_, ?_, by decide, by decide⟩
  · intro content
    exact counter_eq_length_aux content ⟨[], 0, []⟩ (by simp)
  · intro st raw line e hk he
    rw [readDataStep_err st raw line e hk he]
    exact ⟨rfl, rfl⟩
  · intro st raw line p hk hp
    rw [readDataStep_ok st raw line p hk hp]
    exact ⟨rfl, ratSucc_eq st.lineIndex⟩

theorem synthetic_counter_invariant_witness :
    lineKindOf (" # x".toList) = .comment ∧
      readDataStep ⟨[], 0, []⟩ (" # x".toList) = ⟨[], 0, []⟩ :=
  ⟨by decide,
    synthetic_counter_invariant.2.1 ⟨[], 0, []⟩ (" # x".toList) (Or.inr (by decide))⟩

/-! ### Diagnostics do not influence the points or the counter (for C4) -/

theorem foldl_diags_decompose :
    ∀ (ls : List (List Char)) (p : List Point) (c : ℚ) (d : List (ℚ × LineError)),
      List.foldl readDataStep ⟨p, c, d⟩ ls =
        { points := (List.foldl readDataStep ⟨p, c, []⟩ ls).points,
          lineIndex := (List.foldl readDataStep ⟨p, c, []⟩ ls).lineIndex,
          diags := d ++ (List.foldl readDataStep ⟨p, c, []⟩ ls).diags } := by
  intro ls
  induction ls with
  | nil => intro p c d; simp
  | cons l rest ih =>
    intro p c d
    rw [List.foldl_cons, List.foldl_cons]
    rcases hk : lineKindOf l with _ | _ | line
    · rw [readDataStep_skip _ l (Or.inl hk), readDataStep_skip _ l (Or.inl hk)]
      exact ih p c d
    · rw [readDataStep_skip _ l (Or.inr hk), readDataStep_skip _ l (Or.inr hk)]
      exact ih p c d
    · cases hp : parseLine line c with
      | error e =>
        rw [readDataStep_err ⟨p, c, d⟩ l line e hk hp,
          readDataStep_err ⟨p, c, []⟩ l line e hk hp]
        rw [ih p c (d ++ [(ratSucc c, e)]), ih p c ([] ++ [(ratSucc c, e)])]
        simp
      | ok pt =>
        rw [readDataStep_ok ⟨p, c, d⟩ l line pt hk hp,
          readDataStep_ok ⟨p, c, []⟩ l line pt hk hp]
        exact ih (p ++ [pt]) (ratSucc c) d

theorem malformed_insertion (pre post : List (List Char)) (bad : List Char)
    (hk : lineKindOf bad = .data (trimSpace bad))
    (hbad : ∀ i : ℚ, ∃ e, parseLine (trimSpace bad) i = .error e) :
    readData (pre ++ bad :: post) = readData (pre ++ post) ∧
      (ingestV2 (pre ++ bad :: post)).diags.length =
        (ingestV2 (pre ++ post)).diags.length + 1 := by
  unfold readData ingestV2
  rw [List.foldl_append, List.foldl_append, List.foldl_cons]
  set st := List.foldl readDataStep ⟨[], 0, []⟩ pre with hst
  obtain ⟨e, he⟩ := hbad st.lineIndex
  rw [readDataStep_err st bad (trimSpace bad) e hk he]
  have h1 := foldl_diags_decompose post st.points st.lineIndex
    (st.diags ++ [(ratSucc st.lineIndex, e)])
  have h2 := foldl_diags_decompose post st.points st.lineIndex st.diags
  constructor
  · rw [show ({ st with diags := st.diags ++ [(ratSucc st.lineIndex, e)] } : StateV2) =
      ⟨st.points, st.lineIndex, st.diags ++ [(ratSucc st.lineIndex, e)]⟩ from rfl, h1]
    rw [show st = ⟨st.points, st.lineIndex, st.diags⟩ from rfl, h2]
  · rw [show ({ st with diags := st.diags ++ [(ratSucc st.lineIndex, e)] } : StateV2) =
      ⟨st.points, st.lineIndex, st.diags ++ [(ratSucc st.lineIndex, e)]⟩ from rfl, h1]
    rw [show st = ⟨st.points, st.lineIndex, st.diags⟩ from rfl, h2]
    simp [List.length_append]
    ring

/-- C4: Ingestion never aborts because of a malformed line: a non-blank,
non-comment line that fails to parse at every counter value is reported as
one extra diagnostic and skipped — removing it from the file leaves the
point output unchanged — and on the file `1 2` / `bad line here` / `3 4`
both implementations return `[{1,2},{3,4}]` with exactly one diagnostic
and no error. -/
theorem malformed_line_skipped :
    (∀ (pre post : List (List Char)) (bad : List Char),
        lineKindOf bad = .data (trimSpace bad) →
        (∀ i : ℚ, ∃ e, parseLine (trimSpace bad) i = .error e) →
        readData (pre ++ bad :: post) = readData (pre ++ post) ∧
          (ingestV2 (pre ++ bad :: post)).diags.length =
            (ingestV2 (pre ++ post)).diags.length + 1) ∧
    readData [("1 2".toList), ("bad line here".toList), ("3 4".toList)] =
      [⟨1, 2⟩, ⟨3, 4⟩] ∧
    (ingestV2 [("1 2".toList), ("bad line here".toList), ("3 4".toList)]).diags.length = 1 ∧
    readDataFromFile [("1 2".toList), ("bad line here".toList), ("3 4".toList)] =
      [⟨1, 2⟩, ⟨3, 4⟩] ∧
    (ingestV1 [("1 2".toList), ("bad line here".toList), ("3 4".toList)]).diags.length = 1 :=
  ⟨malformed_insertion, by decide, by decide, by decide, by decide⟩

theorem malformed_line_skipped_witness :
    readData [("1".toList), ("x".toList), ("2".toList)] =
        readData [("1".toList), ("2".toList)] ∧
      (ingestV2 [("1".toList), ("x".toList), ("2".toList)]).diags.length =
        (ingestV2 [("1".toList), ("2".toList)]).diags.length + 1 :=
  malformed_line_skipped.1 [("1".toList)] [("2".toList)] ("x".toList) (by decide)
    (fun _ => ⟨.invalidValue .Y ("x".toList), rfl⟩)

/-- C1: For every line and every lineIndex: if splitting the line on runs of
whitespace yields exactly one field that is a valid float literal `y`,
`parseLine line lineIndex` succeeds with `Point{X: lineIndex, Y: y}`; if it
yields exactly two fields that are valid float literals `x` and `y`, it
succeeds with `Point{X: x, Y: y}`.  (Stated for arbitrary lines, which
subsumes the already-trimmed ones of the claim.) -/
theorem parseLine_success_cases (line : List Char) (i : ℚ) :
    (∀ f y, fields line = [f] → parseGoFloat f = some y →
        parseLine line i = .ok ⟨i, y⟩) ∧
    (∀ f g x y, fields line = [f, g] → parseGoFloat f = some x → parseGoFloat g = some y →
        parseLine line i = .ok ⟨x, y⟩) := by
  constructor
  · intro f y hf hy
    simp [parseLine, hf, hy]
  · intro f g x y hf hx hy
    simp [parseLine, hf, hx, hy]

theorem parseLine_success_cases_witness :
    fields ("4".toList) = [("4".toList)] ∧ parseGoFloat ("4".toList) = some 4 ∧
      parseLine ("4".toList) 7 = .ok ⟨7, 4⟩ ∧
      fields ("1 2".toList) = [("1".toList), ("2".toList)] ∧
      parseLine ("1 2".toList) 7 = .ok ⟨1, 2⟩ :=
  ⟨by decide, by decide,
    (parseLine_success_cases ("4".toList) 7).1 ("4".toList) 4 (by decide) (by decide),
    by decide,
    (parseLine_success_cases ("1 2".toList) 7).2 ("1".toList) ("2".toList) 1 2
      (by decide) (by decide) (by decide)⟩

/-- C2: `parseLine` fails exactly in these cases and succeeds otherwise:
0 fields or 3+ fields fail with `UnsupportedFormat` carrying the actual
field count; 1 or 2 fields with an invalid required field fail with
`InvalidValue` naming the offending field (X or Y); it succeeds precisely
when the split yields 1 or 2 fields that are all valid float literals. -/
theorem parseLine_characterization (line : List Char) (i : ℚ) :
    ((fields line).length = 0 ∨ 3 ≤ (fields line).length →
        parseLine line i = .error (.unsupportedFormat (fields line).length)) ∧
    (∀ f, fields line = [f] → parseGoFloat f = none →
        parseLine line i = .error (.invalidValue .Y f)) ∧
    (∀ f g, fields line = [f, g] → parseGoFloat f = none →
        parseLine line i = .error (.invalidValue .X f)) ∧
    (∀ f g x, fields line = [f, g] → parseGoFloat f = some x → parseGoFloat g = none →
        parseLine line i = .error (.invalidValue .Y g)) ∧
    ((∃ p, parseLine line i = .ok p) ↔
        (∃ f y, fields line = [f] ∧ parseGoFloat f = some y) ∨
          (∃ f g x y, fields line = [f, g] ∧ parseGoFloat f = some x ∧
            parseGoFloat g = some y)) := by
  refine ⟨?_, ?_, ?_, ?_, ?_, ?_⟩
  · intro h
    rcases hf : fields line with _ | ⟨f, _ | ⟨g, rest⟩⟩
    · simp [parseLine, hf]
    · rw [hf] at h; simp at h
    · rcases rest with _ | ⟨r3, rest2⟩
      · rw [hf] at h; simp at h
      · simp [parseLine, hf]
  · intro f hf hn
    simp [parseLine, hf, hn]
  · intro f g hf hn
    simp [parseLine, hf, hn]
  · intro f g x hf hx hn
    simp [parseLine, hf, hx, hn]
  · rintro ⟨p, hp⟩
    rcases hf : fields line with _ | ⟨f, _ | ⟨g, rest⟩⟩
    · simp [parseLine, hf] at hp
    · cases hpf : parseGoFloat f with
      | none => simp [parseLine, hf, hpf] at hp
      | some y => exact Or.inl ⟨f, y, rfl, hpf⟩
    · rcases rest with _ | ⟨r3, rest2⟩
      · cases hpf : parseGoFloat f with
        | none => simp [parseLine, hf, hpf] at hp
        | some x =>
          cases hpg : parseGoFloat g with
          | none => simp [parseLine, hf, hpf, hpg] at hp
          | some y => exact Or.inr ⟨f, g, x, y, rfl, hpf, hpg⟩
      · simp [parseLine, hf] at hp
  · rintro (⟨f, y, hf, hy⟩ | ⟨f, g, x, y, hx2, hx, hy⟩)
    · exact ⟨⟨i, y⟩, by simp [parseLine, hf, hy]⟩
    · exact ⟨⟨x, y⟩, by simp [parseLine, hx2, hx, hy]⟩

theorem parseLine_characterization_witness :
    parseLine ("1 2 3".toList) 5 = .error (.unsupportedFormat 3) ∧
      parseLine ("xyz".toList) 5 = .error (.invalidValue .Y ("xyz".toList)) :=
  ⟨by
      have h := (parseLine_characterization ("1 2 3".toList) 5).1 (Or.inr (by decide))
      rwa [show (fields ("1 2 3".toList)).length = 3 from by decide] at h,
    (parseLine_characterization ("xyz".toList) 5).2.1 ("xyz".toList) (by decide) (by decide)⟩

/-- C5: If ingestion completes without an I/O or scan error but yields zero
points, the run fails with the distinct fatal `no valid data points found`
error and a non-zero exit; an empty point sequence is never treated as
success by either caller (`run` or `plotDataToSixel`). -/
theorem empty_dataset_fatal :
    (∀ (content : List (List Char)) (term : List Char) (chartOk decodeOk : Bool),
        readData content = [] →
          run content term true chartOk decodeOk = .error .emptyDataset ∧
            exitCode (run content term true chartOk decodeOk) ≠ 0) ∧
    (∀ (content : List (List Char)) (term : List Char) (scanOk chartOk decodeOk b : Bool),
        run content term scanOk chartOk decodeOk = .ok b → readData content ≠ []) ∧
    (∀ (content : List (List Char)) (term : List Char) (chartOk decodeOk : Bool),
        readDataFromFile content = [] →
          plotDataToSixel content term true chartOk decodeOk = .error .emptyDataset ∧
            exitCode (plotDataToSixel content term true chartOk decodeOk) ≠ 0) ∧
    (∀ (content : List (List Char)) (term : List Char) (scanOk chartOk decodeOk b : Bool),
        plotDataToSixel content term scanOk chartOk decodeOk = .ok b →
          readDataFromFile content ≠ []) ∧
    run [("# only comments".toList), ("".toList), ("% note".toList)] ("xterm".toList)
        true true true = .error .emptyDataset := by
  refine ⟨?_, ?_, ?_, ?_, by decide⟩
  · intro content term chartOk decodeOk h
    exact ⟨by simp [run, h], by simp [run, h, exitCode]⟩
  · intro content term scanOk chartOk decodeOk b hok hempty
    cases scanOk <;> simp [run, hempty] at hok
  · intro content term chartOk decodeOk h
    exact ⟨by simp [plotDataToSixel, h], by simp [plotDataToSixel, h, exitCode]⟩
  · intro content term scanOk chartOk decodeOk b hok hempty
    cases scanOk <;> simp [plotDataToSixel, hempty] at hok

theorem empty_dataset_fatal_witness :
    readData [(" ".toList)] = [] ∧
      run [(" ".toList)] ("dumb".toList) true true true = .error .emptyDataset ∧
      exitCode (run [(" ".toList)] ("dumb".toList) true true true) ≠ 0 :=
  ⟨by decide,
    (empty_dataset_fatal.1 [(" ".toList)] ("dumb".toList) true true (by decide)).1,
    (empty_dataset_fatal.1 [(" ".toList)] ("dumb".toList) true true (by decide)).2⟩

/-! ### Sixel terminal-capability lemmas (C8) -/

theorem startsWith_map (f : Char → Char) :
    ∀ p s : List Char, startsWith p s = true → startsWith (p.map f) (s.map f) = true := by
  intro p
  induction p with
  | nil => intro s _; rfl
  | cons a ps ih =>
    intro s h
    cases s with
    | nil => cases h
    | cons c cs =>
      rw [startsWith] at h
      simp only [Bool.and_eq_true, decide_eq_true_eq] at h
      obtain ⟨h1, h2⟩ := h
      subst h1
      simp [List.map_cons, startsWith, ih cs h2]

theorem strContains_map (f : Char → Char) :
    ∀ s p : List Char, strContains s p = true → strContains (s.map f) (p.map f) = true := by
  intro s
  induction s with
  | nil =>
    intro p h
    cases p with
    | nil => rfl
    | cons a ps => cases h
  | cons c cs ih =>
    intro p h
    rw [strContains] at h
    simp only [Bool.or_eq_true] at h
    rw [List.map_cons, strContains]
    simp only [Bool.or_eq_true]
    rcases h with h | h
    · exact Or.inl (startsWith_map f p (c :: cs) h)
    · exact Or.inr (ih p h)

theorem sixel_support_ci (term : List Char) :
    isSixelSupported term = true ↔
      (strContainsCI term xtermPat = true ∨ strContainsCI term vt340Pat = true ∨
        strContainsCI term mltermPat = true) := by
  unfold isSixelSupported strContainsCI
  rw [show xtermPat.map lowerChar = xtermPat from by decide,
    show vt340Pat.map lowerChar = vt340Pat from by decide,
    show mltermPat.map lowerChar = mltermPat from by decide]
  simp [Bool.or_eq_true, or_assoc]

theorem sixelV1_implies_v2 (term : List Char) (h : isSixelSupportedV1 term = true) :
    isSixelSupported term = true := by
  unfold isSixelSupportedV1 at h
  unfold isSixelSupported
  simp only [Bool.or_eq_true] at h ⊢
  rcases h with (h | h) | h
  · refine Or.inl (Or.inl ?_)
    have hm := strContains_map lowerChar term xtermPat h
    rwa [show xtermPat.map lowerChar = xtermPat from by decide] at hm
  · refine Or.inl (Or.inr ?_)
    have hm := strContains_map lowerChar term vt340Pat h
    rwa [show vt340Pat.map lowerChar = vt340Pat from by decide] at hm
  · refine Or.inr ?_
    have hm := strContains_map lowerChar term mltermPat h
    rwa [show mltermPat.map lowerChar = mltermPat from by decide] at hm

/-- C8 counterexample: with `TERM=XTERM` the variable contains `xterm`
case-insensitively, yet the older `isSixelSupported` (no lowercasing)
reports no support and `plotDataToSixel` skips the display, contradicting
the claimed iff for the older implementation. -/
theorem sixel_case_cex :
    strContainsCI ("XTERM".toList) xtermPat = true ∧
      isSixelSupportedV1 ("XTERM".toList) = false ∧
      plotDataToSixel [("5".toList)] ("XTERM".toList) true true true = .ok false ∧
      isSixelSupported ("XTERM".toList) = true := by
  exact ⟨by decide, by decide, by decide, by decide⟩

/-- C8 amended: the newer `isSixelSupported` attempts display iff `TERM`
contains `xterm`, `vt340` or `mlterm` case-insensitively; the older one
uses the same substrings but case-sensitively (so it accepts a subset of
the terms the newer one accepts); in both variants an unsupported `TERM`
skips the display silently and the run still succeeds with the file
saved. -/
theorem sixel_support_amended :
    (∀ term : List Char,
        isSixelSupported term = true ↔
          (strContainsCI term xtermPat = true ∨ strContainsCI term vt340Pat = true ∨
            strContainsCI term mltermPat = true)) ∧
    (∀ term : List Char, isSixelSupportedV1 term = true → isSixelSupported term = true) ∧
    (∀ term : List Char,
        isSixelSupportedV1 term = true ↔
          (strContains term xtermPat = true ∨ strContains term vt340Pat = true ∨
            strContains term mltermPat = true)) ∧
    (∀ (content : List (List Char)) (term : List Char) (decodeOk : Bool),
        readData content ≠ [] → isSixelSupported term = false →
          run content term true true decodeOk = .ok false) ∧
    (∀ (content : List (List Char)) (term : List Char) (decodeOk : Bool),
        readDataFromFile content ≠ [] → isSixelSupportedV1 term = false →
          plotDataToSixel content term true true decodeOk = .ok false) := by
  refine ⟨sixel_support_ci, sixelV1_implies_v2, ?_, ?_, ?_⟩
  · intro term
    unfold isSixelSupportedV1
    simp [Bool.or_eq_true, or_assoc]
  · intro content term decodeOk hne hsix
    simp [run, hne, hsix]
  · intro content term decodeOk hne hsix
    simp [plotDataToSixel, hne, hsix]

theorem sixel_support_amended_witness :
    isSixelSupported ("dumb".toList) = false ∧
      run [("5".toList)] ("dumb".toList) true true true = .ok false :=
  ⟨by decide,
    sixel_support_amended.2.2.2.1 [("5".toList)] ("dumb".toList) true (by decide) (by decide)⟩

/-- C9 counterexample: with `width=100`, `height=1`, `scale=0.5` (exactly
representable in binary floating point) the truncated height is 0, so the
older `plotDataToSixel` leaves the encoder untouched instead of giving it
`int(width*scale) × int(height*scale)` as the claim states. -/
theorem sixel_scale_cex :
    (Config.mk 100 1 (mkRat 1 2)).scale ≠ 1 ∧
      goInt (qScale 100 (mkRat 1 2)) = 50 ∧
      plotDataToSixelDims ⟨100, 1, mkRat 1 2⟩ = none ∧
      plotDataToSixelDims ⟨100, 1, mkRat 1 2⟩ ≠
        some (goInt (qScale 100 (mkRat 1 2)), goInt (qScale 1 (mkRat 1 2))) := by
  exact ⟨by decide, by decide, by decide, by decide⟩

/-- C9 amended: when `scale ≠ 1.0` the newer `displaySixel` always gives
the encoder `int(width*scale) × int(height*scale)` (truncated toward
zero); the older `plotDataToSixel` does so only when both truncated values
are positive and otherwise leaves the encoder at its defaults; with
`width=100, height=50, scale=2.0` both request exactly `200 × 100`; the
saved file dimensions are derived from `width`/`height` alone and are
unaffected by `scale`. -/
theorem sixel_scale_amended :
    (∀ cfg : Config, cfg.scale ≠ 1 →
        displaySixelDims cfg =
          some (goInt ((cfg.width : ℚ) * cfg.scale), goInt ((cfg.height : ℚ) * cfg.scale))) ∧
    (∀ cfg : Config, cfg.scale ≠ 1 →
        (0 < goInt ((cfg.width : ℚ) * cfg.scale) → 0 < goInt ((cfg.height : ℚ) * cfg.scale) →
          plotDataToSixelDims cfg =
            some (goInt ((cfg.width : ℚ) * cfg.scale), goInt ((cfg.height : ℚ) * cfg.scale))) ∧
        (¬(0 < goInt ((cfg.width : ℚ) * cfg.scale) ∧
            0 < goInt ((cfg.height : ℚ) * cfg.scale)) →
          plotDataToSixelDims cfg = none)) ∧
    (∀ cfg : Config, cfg.scale = 1 →
        displaySixelDims cfg = none ∧ plotDataToSixelDims cfg = none) ∧
    displaySixelDims ⟨100, 50, 2⟩ = some (200, 100) ∧
    plotDataToSixelDims ⟨100, 50, 2⟩ = some (200, 100) ∧
    (∀ (w h : ℤ) (s1 s2 : ℚ), savedDims ⟨w, h, s1⟩ = savedDims ⟨w, h, s2⟩) := by
  refine ⟨?_, ?_, ?_, by decide, by decide, fun w h s1 s2 => rfl⟩
  · intro cfg hs
    simp only [displaySixelDims, if_neg hs, qScale_eq]
  · intro cfg hs
    simp only [plotDataToSixelDims, if_neg hs, qScale_eq]
    constructor
    · intro h1 h2
      rw [if_pos ⟨h1, h2⟩]
    · intro h
      rw [if_neg h]
  · intro cfg hs
    constructor
    · simp [displaySixelDims, hs]
    · simp [plotDataToSixelDims, hs]

theorem sixel_scale_amended_witness :
    displaySixelDims ⟨100, 50, 2⟩ =
      some (goInt ((100 : ℚ) * 2), goInt ((50 : ℚ) * 2)) :=
  sixel_scale_amended.1 ⟨100, 50, 2⟩ (by decide)

/-! ### The older ingestion loop on lines whose first field cannot parse -/

theorem readDataFromFileStep_invalid_first (st : StateV1) (line f : List Char)
    (rest : List (List Char))
    (hf : fields line = f :: rest) (hpf : parseGoFloat f = none) :
    (readDataFromFileStep st line).points = st.points ∧
      (readDataFromFileStep st line).lineNumber = st.lineNumber := by
  cases hcom : isCommentV1 line with
  | true => simp [readDataFromFileStep, hcom]
  | false =>
    cases rest with
    | nil => simp [readDataFromFileStep, hcom, hf, hpf]
    | cons g rest2 => simp [readDataFromFileStep, hcom, hf, hpf]

/-- C6 counterexample: the line `  # c` (leading whitespace before `#`) has
`#` as its first post-trim character, yet `readDataFromFile` does not skip
it as a comment: the untrimmed prefix check fails and the line instead
produces a parse diagnostic; `readData`, which trims first, comment-skips
it silently. -/
theorem classification_trim_cex :
    trimSpace ("  # c".toList) = ("# c".toList) ∧
      isCommentV1 ("  # c".toList) = false ∧
      (ingestV1 [("  # c".toList)]).diags = [(1, ("  # c".toList))] ∧
      (ingestV2 [("  # c".toList)]).diags = [] := by
  exact ⟨by decide, by decide, by decide, by decide⟩

/-- C6 amended: `readData` trims whitespace first — a whitespace-only line
is skipped as blank (no diagnostic), a line whose first post-trim character
is `#` or `%` is skipped as a comment, and `#`/`%` at any other position
has no effect on its classification.  `readDataFromFile` instead checks the
`#`, `%`, `/` prefixes on the untrimmed line, so a line whose first
post-trim (but not raw first) character is `#`/`%` is not comment-skipped
there; it still yields no point and leaves its synthetic X counter
unchanged. -/
theorem classification_trimming :
    (∀ (st : StateV2) (raw : List Char), (∀ c ∈ raw, isSpace c = true) →
        lineKindOf raw = .blank ∧ readDataStep st raw = st) ∧
    (∀ (st : StateV2) (raw : List Char) (c : Char) (t : List Char),
        trimSpace raw = c :: t → c = '#' ∨ c = '%' →
          lineKindOf raw = .comment ∧ readDataStep st raw = st) ∧
    (∀ (raw : List Char) (c : Char) (t : List Char),
        trimSpace raw = c :: t → c ≠ '#' → c ≠ '%' →
          lineKindOf raw = .data (c :: t)) ∧
    (∀ (st : StateV1) (raw : List Char) (c : Char) (t : List Char),
        trimSpace raw = c :: t → c = '#' ∨ c = '%' →
          (readDataFromFileStep st raw).points = st.points ∧
            (readDataFromFileStep st raw).lineNumber = st.lineNumber) := by
  refine ⟨?_, ?_, lineKindOf_data, ?_⟩
  · intro st raw hall
    have hb := lineKindOf_blank raw ((trimSpace_eq_nil_iff raw).mpr hall)
    exact ⟨hb, readDataStep_skip st raw (Or.inl hb)⟩
  · intro st raw c t htrim hc
    have hk := lineKindOf_comment raw c t htrim hc
    exact ⟨hk, readDataStep_skip st raw (Or.inr hk)⟩
  · intro st raw c t htrim hc
    have hcs : isSpace c = false :=
      isSpace_of_marker c (hc.elim Or.inl fun h => Or.inr (Or.inl h))
    obtain ⟨f0, rest, hfct⟩ := fields_cons_head c t hcs
    have hfields : fields raw = (c :: f0) :: rest := by
      rw [← fields_trimSpace raw, htrim, hfct]
    exact readDataFromFileStep_invalid_first st raw (c :: f0) rest hfields
      (parseGoFloat_marker_none c f0 (hc.elim Or.inl fun h => Or.inr (Or.inl h)))

theorem classification_trimming_witness :
    lineKindOf ("   ".toList) = .blank ∧
      lineKindOf (" % x".toList) = .comment ∧
      lineKindOf ("1 # 2".toList) = .data ("1 # 2".toList) ∧
      (readDataFromFileStep ⟨[], 0, 0, []⟩ ("  # c".toList)).points = [] :=
  ⟨(classification_trimming.1 ⟨[], 0, []⟩ ("   ".toList) (by decide)).1,
    (classification_trimming.2.1 ⟨[], 0, []⟩ (" % x".toList) '%' (" x".toList)
      (by decide) (Or.inr rfl)).1,
    classification_trimming.2.2.1 ("1 # 2".toList) '1' (" # 2".toList)
      (by decide) (by decide) (by decide),
    (classification_trimming.2.2.2 ⟨[], 0, 0, []⟩ ("  # c".toList) '#' (" c".toList)
      (by decide) (Or.inl rfl)).1⟩

/-! ### Equivalence of the two ingestion loops (C7) -/

theorem step_equiv (st1 : StateV1) (st2 : StateV2) (l : List Char)
    (hp : st1.points = st2.points) (hc : st1.lineNumber = st2.lineIndex)
    (hslash : l.head? ≠ some '/') (hlen : (fields l).length ≤ 2) :
    (readDataFromFileStep st1 l).points = (readDataStep st2 l).points ∧
      (readDataFromFileStep st1 l).lineNumber = (readDataStep st2 l).lineIndex := by
  cases htr : trimSpace l with
  | nil =>
    have hall : ∀ c ∈ l, isSpace c = true := (trimSpace_eq_nil_iff l).mp htr
    have hfe : fields l = [] := (fields_eq_nil_iff l).mpr hall
    have hcom : isCommentV1 l = false := by
      cases l with
      | nil => rfl
      | cons a r =>
        have ha := hall a (List.mem_cons_self a r)
        have h1 : a ≠ '#' := fun h => by subst h; exact absurd ha (by decide)
        have h2 : a ≠ '%' := fun h => by subst h; exact absurd ha (by decide)
        have h3 : a ≠ '/' := fun h => by subst h; exact absurd ha (by decide)
        simp [isCommentV1, h1, h2, h3]
    rw [readDataStep_skip st2 l (Or.inl (lineKindOf_blank l htr))]
    constructor
    · show (readDataFromFileStep st1 l).points = st2.points
      rw [← hp]
      simp [readDataFromFileStep, hcom, hfe]
    · show (readDataFromFileStep st1 l).lineNumber = st2.lineIndex
      rw [← hc]
      simp [readDataFromFileStep, hcom, hfe]
  | cons c t =>
    have hcs : isSpace c = false := trimSpace_head_not_space l c t htr
    obtain ⟨f0, rest, hfct⟩ := fields_cons_head c t hcs
    have hfields : fields l = (c :: f0) :: rest := by
      rw [← fields_trimSpace l, htr, hfct]
    by_cases hmark : c = '#' ∨ c = '%'
    · rw [readDataStep_skip st2 l (Or.inr (lineKindOf_comment l c t htr hmark))]
      have hv1 := readDataFromFileStep_invalid_first st1 l (c :: f0) rest hfields
        (parseGoFloat_marker_none c f0 (hmark.elim Or.inl fun h => Or.inr (Or.inl h)))
      exact ⟨hv1.1.trans hp, hv1.2.trans hc⟩
    · push_neg at hmark
      obtain ⟨hch, hcp⟩ := hmark
      have hkind := lineKindOf_data l c t htr hch hcp
      have hcom : isCommentV1 l = false := by
        cases l with
        | nil => simp [trimSpace, trimRight] at htr
        | cons a r =>
          by_cases ha : isSpace a = true
          · have h1 : a ≠ '#' := fun h => by subst h; exact absurd ha (by decide)
            have h2 : a ≠ '%' := fun h => by subst h; exact absurd ha (by decide)
            have h3 : a ≠ '/' := fun h => by subst h; exact absurd ha (by decide)
            simp [isCommentV1, h1, h2, h3]
          · obtain ⟨u, hu⟩ := trimSpace_cons_not_space a r (eq_false_of_ne_true ha)
            rw [hu] at htr
            injection htr with h1 _
            subst h1
            have h3 : a ≠ '/' := fun h => hslash (by rw [h]; rfl)
            simp [isCommentV1, hch, hcp, h3]
      cases rest with
      | nil =>
        cases hpf : parseGoFloat (c :: f0) with
        | none =>
          have hpl : parseLine (c :: t) st2.lineIndex =
              .error (.invalidValue .Y (c :: f0)) := by
            simp [parseLine, hfct, hpf]
          rw [readDataStep_err st2 l (c :: t) (.invalidValue .Y (c :: f0)) hkind hpl]
          constructor
          · show (readDataFromFileStep st1 l).points = st2.points
            rw [← hp]
            simp [readDataFromFileStep, hcom, hfields, hpf]
          · show (readDataFromFileStep st1 l).lineNumber = st2.lineIndex
            rw [← hc]
            simp [readDataFromFileStep, hcom, hfields, hpf]
        | some y =>
          have hpl : parseLine (c :: t) st2.lineIndex = .ok ⟨st2.lineIndex, y⟩ := by
            simp [parseLine, hfct, hpf]
          rw [readDataStep_ok st2 l (c :: t) ⟨st2.lineIndex, y⟩ hkind hpl]
          constructor
          · show (readDataFromFileStep st1 l).points =
              st2.points ++ [⟨st2.lineIndex, y⟩]
            rw [← hp, ← hc]
            simp [readDataFromFileStep, hcom, hfields, hpf]
          · show (readDataFromFileStep st1 l).lineNumber = ratSucc st2.lineIndex
            rw [← hc]
            simp [readDataFromFileStep, hcom, hfields, hpf]
      | cons g rest2 =>
        cases rest2 with
        | nil =>
          cases hpf : parseGoFloat (c :: f0) with
          | none =>
            have hpl : parseLine (c :: t) st2.lineIndex =
                .error (.invalidValue .X (c :: f0)) := by
              simp [parseLine, hfct, hpf]
            rw [readDataStep_err st2 l (c :: t) (.invalidValue .X (c :: f0)) hkind hpl]
            constructor
            · show (readDataFromFileStep st1 l).points = st2.points
              rw [← hp]
              simp [readDataFromFileStep, hcom, hfields, hpf]
            · show (readDataFromFileStep st1 l).lineNumber = st2.lineIndex
              rw [← hc]
              simp [readDataFromFileStep, hcom, hfields, hpf]
          | some x =>
            cases hpg : parseGoFloat g with
            | none =>
              have hpl : parseLine (c :: t) st2.lineIndex =
                  .error (.invalidValue .Y g) := by
                simp [parseLine, hfct, hpf, hpg]
              rw [readDataStep_err st2 l (c :: t) (.invalidValue .Y g) hkind hpl]
              constructor
              · show (readDataFromFileStep st1 l).points = st2.points
                rw [← hp]
                simp [readDataFromFileStep, hcom, hfields, hpf, hpg]
              · show (readDataFromFileStep st1 l).lineNumber = st2.lineIndex
                rw [← hc]
                simp [readDataFromFileStep, hcom, hfields, hpf, hpg]
            | some y =>
              have hpl : parseLine (c :: t) st2.lineIndex = .ok ⟨x, y⟩ := by
                simp [parseLine, hfct, hpf, hpg]
              rw [readDataStep_ok st2 l (c :: t) ⟨x, y⟩ hkind hpl]
              constructor
              · show (readDataFromFileStep st1 l).points = st2.points ++ [⟨x, y⟩]
                rw [← hp]
                simp [readDataFromFileStep, hcom, hfields, hpf, hpg]
              · show (readDataFromFileStep st1 l).lineNumber = ratSucc st2.lineIndex
                rw [← hc]
                simp [readDataFromFileStep, hcom, hfields, hpf, hpg]
        | cons g2 rest3 =>
          rw [hfields] at hlen
          simp [List.length_cons] at hlen

theorem ingest_equiv_aux :
    ∀ (content : List (List Char)) (st1 : StateV1) (st2 : StateV2),
      st1.points = st2.points → st1.lineNumber = st2.lineIndex →
      (∀ l ∈ content, l.head? ≠ some '/' ∧ (fields l).length ≤ 2) →
      (List.foldl readDataFromFileStep st1 content).points =
          (List.foldl readDataStep st2 content).points ∧
        (List.foldl readDataFromFileStep st1 content).lineNumber =
          (List.foldl readDataStep st2 content).lineIndex := by
  intro content
  induction content with
  | nil => intro st1 st2 hp hc _; exact ⟨hp, hc⟩
  | cons l ls ih =>
    intro st1 st2 hp hc hh
    obtain ⟨hs, hl⟩ := hh l (List.mem_cons_self l ls)
    have hstep := step_equiv st1 st2 l hp hc hs hl
    rw [List.foldl_cons, List.foldl_cons]
    exact ih (readDataFromFileStep st1 l) (readDataStep st2 l) hstep.1 hstep.2
      (fun x hx => hh x (List.mem_cons_of_mem l hx))

/-- C7 counterexample: the single-line file `1 2 3` has no `/`-prefixed
line, yet the two implementations disagree on its point output:
`readDataFromFile` silently parses the first two of the three fields while
`readData` rejects the line as unsupported. -/
theorem ingestion_equiv_cex :
    (("1 2 3".toList).head? ≠ some '/') ∧
      readDataFromFile [("1 2 3".toList)] = [⟨1, 2⟩] ∧
      readData [("1 2 3".toList)] = [] := by
  exact ⟨by decide, by decide, by decide⟩

/-- C7 amended: `readDataFromFile` and `readData` produce the same point
sequence on every file content in which no line begins with `/` and no
line splits into three or more whitespace-separated fields (lines with 3+
fields are a further behavioral disagreement beyond the `/`-comment and
default-configuration differences: the older code takes the first two
fields, the newer rejects the line). -/
theorem ingestion_equiv_amended (content : List (List Char))
    (h : ∀ l ∈ content, l.head? ≠ some '/' ∧ (fields l).length ≤ 2) :
    readDataFromFile content = readData content :=
  (ingest_equiv_aux content ⟨[], 0, 0, []⟩ ⟨[], 0, []⟩ rfl rfl h).1

theorem ingestion_equiv_amended_witness :
    readDataFromFile [("1 2".toList), ("# c".toList), ("  % d".toList), ("7".toList)] =
      readData [("1 2".toList), ("# c".toList), ("  % d".toList), ("7".toList)] :=
  ingestion_equiv_amended
    [("1 2".toList), ("# c".toList), ("  % d".toList), ("7".toList)] (by decide)

end PlotView
